import Mathlib

/-!
# Source resolution and repository-reference parsing of kitops, verified

A shallow embedding of the `init` command's source-resolution core:

* `ParseHuggingFaceRepo` / `isValidRepoFormat` from `pkg/lib/hf/parse.go`;
* `detectRemoteRepo` / `isLocalPath` / `buildPackageFromRepo` from the
  `kitinit` command file;
* the slice of Go's `net/url` package (`url.Parse`, `URL.Hostname`) that
  `ParseHuggingFaceRepo` relies on.

Strings are modelled as `List Char` (`Str`); the sources only ever compare,
split and slice whole characters, so Go's byte strings and this model agree on
every input made of ASCII characters, and the model is meaningful beyond them.
The one filesystem effect (`os.Stat` inside `detectRemoteRepo`) is passed in as
an oracle `Str → StatOutcome`; the Go code inspects nothing but whether the
returned error is nil, `errors.Is(err, fs.ErrNotExist)` being distinguished
only conceptually.
-/

/-- Strings, modelled as lists of characters. -/
abbrev Str := List Char

/-! ## Go `strings` primitives used by the sources -/

/-- Go `strings.HasPrefix s p`. -/
def goHasPrefix (s p : Str) : Bool := p.isPrefixOf s

/-- Go `strings.HasSuffix s p`. -/
def goHasSuffix (s p : Str) : Bool := p.isSuffixOf s

/-- Go `strings.Contains s sub`. -/
def goContains (s sub : Str) : Bool := decide (sub <:+: s)

/-- Go `strings.Split s sep` for the one-character separators the sources use. -/
def goSplit (s : Str) (c : Char) : List Str := s.splitOn c

/-- Go `strings.TrimPrefix s p`. -/
def goTrimPrefix (s p : Str) : Str :=
  if goHasPrefix s p then s.drop p.length else s

/-- Go `strings.Trim s cutset` for a one-character cutset. -/
def goTrim (s : Str) (c : Char) : Str :=
  (s.dropWhile (· == c)).rdropWhile (· == c)

/-- Go `strings.Join parts sep` for a one-character separator. -/
def goJoin (parts : List Str) (c : Char) : Str := List.intercalate [c] parts

/-- Go `strings.Cut s sep` for a one-character separator: the parts before and
after the first occurrence, `(s, [])` when the separator is absent. -/
def goCut (s : Str) (c : Char) : Str × Str :=
  match s with
  | [] => ([], [])
  | x :: xs =>
    if x = c then ([], xs)
    else
      let r := goCut xs c
      (x :: r.1, r.2)

/-- Split at the first occurrence of `c`, keeping the separator at the head of
the second part (Go's `s[:i], s[i:]` after `strings.Index`); `(s, [])` when
absent. -/
def goBreakAt (s : Str) (c : Char) : Str × Str :=
  match s with
  | [] => ([], [])
  | x :: xs =>
    if x = c then ([], x :: xs)
    else
      let r := goBreakAt xs c
      (x :: r.1, r.2)

/-- Split around the last occurrence of `c` (Go's `strings.LastIndex` idiom):
`some (before, after)`, or `none` when `c` is absent. -/
def cutLast (s : Str) (c : Char) : Option (Str × Str) :=
  match s with
  | [] => none
  | x :: xs =>
    match cutLast xs c with
    | some r => some (x :: r.1, r.2)
    | none => if x = c then some ([], xs) else none

/-! ## The slice of Go `net/url` that `ParseHuggingFaceRepo` uses

Modelled from Go's `net/url` source: `getScheme`, `parse` (with
`viaRequest = false`, as called from `url.Parse`), `parseAuthority`,
`parseHost`, `splitHostPort` and `URL.Hostname`.  Percent-unescaping is
modelled for the path component (where it changes the extracted segments);
for the host and userinfo components Go's extra validation
(`unescape(_, encodeHost)`, `validUserinfo`) is omitted — on hosts it can
only reject more inputs or decode `%XX` escapes with `X ≥ 8`, i.e. bytes
outside ASCII, so it never makes a host compare equal to the all-ASCII
trusted hostname that this model's caller checks against. -/

/-- ASCII letter, the only characters Go's `getScheme` accepts first. -/
def isSchemeAlpha (c : Char) : Bool :=
  ('a' ≤ c && c ≤ 'z') || ('A' ≤ c && c ≤ 'Z')

/-- ASCII digit. -/
def isDigitChar (c : Char) : Bool := '0' ≤ c && c ≤ '9'

/-- Go `net/url`'s `validOptionalPort`: empty, or `:` followed by digits only. -/
def validOptionalPort (port : Str) : Bool :=
  match port with
  | [] => true
  | ':' :: rest => rest.all isDigitChar
  | _ => false

/-- The scan of Go's `getScheme` after a leading letter: letters, digits and
`+`/`-`/`.` extend the scheme, `:` ends it, anything else means the whole
string has no scheme. -/
def getSchemeRest (acc : Str) (orig : Str) : Str → Str × Str
  | [] => ([], orig)
  | c :: cs =>
    if c = ':' then (acc, cs)
    else if isSchemeAlpha c || isDigitChar c || c = '+' || c = '-' || c = '.' then
      getSchemeRest (acc ++ [c]) orig cs
    else ([], orig)

/-- Go `net/url`'s `getScheme`: `none` is the "missing protocol scheme" error
(`:` first); `some ([], s)` means no scheme was found and the input is left
whole; `some (scheme, rest)` splits at the terminating `:`. -/
def getScheme (s : Str) : Option (Str × Str) :=
  match s with
  | [] => some ([], [])
  | c :: cs =>
    if c = ':' then none
    else if isSchemeAlpha c then some (getSchemeRest [c] s cs)
    else some ([], s)

/-- Hexadecimal digit, as Go's `ishex`. -/
def isHexDigit (c : Char) : Bool :=
  isDigitChar c || ('a' ≤ c && c ≤ 'f') || ('A' ≤ c && c ≤ 'F')

/-- Value of a hexadecimal digit, as Go's `unhex`. -/
def hexVal (c : Char) : Nat :=
  if isDigitChar c then c.toNat - '0'.toNat
  else if 'a' ≤ c && c ≤ 'f' then c.toNat - 'a'.toNat + 10
  else c.toNat - 'A'.toNat + 10

/-- Go `net/url`'s `unescape(s, encodePath)` as invoked from `setPath`:
decode every `%XX` escape, failing on a malformed one.  (`+` is left alone in
path mode.) -/
def unescapePath : Str → Option Str
  | [] => some []
  | '%' :: a :: b :: rest =>
    if isHexDigit a && isHexDigit b then
      match unescapePath rest with
      | some t => some (Char.ofNat (hexVal a * 16 + hexVal b) :: t)
      | none => none
    else none
  | '%' :: _ => none
  | c :: rest =>
    match unescapePath rest with
    | some t => some (c :: t)
    | none => none

/-- The fields of Go's `url.URL` that the parser reads. -/
structure GoURL where
  scheme : Str
  opaquePart : Str
  host : Str
  path : Str
deriving DecidableEq, Repr

/-- Go `net/url`'s `parseHost` (bracketed-IPv6 `]` requirement and port
validation; percent-unescaping of the host omitted, see above). -/
def parseHost (host : Str) : Option Str :=
  if goHasPrefix host ['['] then
    match cutLast host ']' with
    | none => none
    | some r => if validOptionalPort r.2 then some host else none
  else
    match cutLast host ':' with
    | none => some host
    | some r => if validOptionalPort (':' :: r.2) then some host else none

/-- Go `net/url`'s `parseAuthority`: the host is everything after the last `@`
(userinfo validation omitted, see above). -/
def parseAuthority (authority : Str) : Option Str :=
  match cutLast authority '@' with
  | none => parseHost authority
  | some r => parseHost r.2

/-- Go `url.Parse` on the fields this development reads: cut the fragment, run
`getScheme`, lowercase the scheme, cut the query, then either record a rootless
opaque part, reject a relative first segment holding `:`, or split off the
`//authority` and set the (percent-decoded) path. -/
def urlParse (rawURL : Str) : Option GoURL :=
  let u := (goCut rawURL '#').1
  match getScheme u with
  | none => none
  | some sr =>
    let scheme := sr.1.map Char.toLower
    let rest := (goCut sr.2 '?').1
    if !goHasPrefix rest ['/'] && scheme != [] then
      some { scheme := scheme, opaquePart := rest, host := [], path := [] }
    else if !goHasPrefix rest ['/'] && (goCut rest '/').1.contains ':' then
      none
    else if (scheme != [] || !goHasPrefix rest ['/', '/', '/']) && goHasPrefix rest ['/', '/'] then
      let br := goBreakAt (rest.drop 2) '/'
      match parseAuthority br.1 with
      | none => none
      | some host =>
        match unescapePath br.2 with
        | some p => some { scheme := scheme, opaquePart := [], host := host, path := p }
        | none => none
    else
      match unescapePath rest with
      | some p => some { scheme := scheme, opaquePart := [], host := [], path := p }
      | none => none

/-- Go `net/url`'s `splitHostPort`: strip a valid `:port` suffix, then a
surrounding `[` `]` pair. -/
def splitHostPort (hostPort : Str) : Str × Str :=
  let hp :=
    match cutLast hostPort ':' with
    | some r => if validOptionalPort (':' :: r.2) then (r.1, r.2) else (hostPort, ([] : Str))
    | none => (hostPort, ([] : Str))
  if goHasPrefix hp.1 ['['] && goHasSuffix hp.1 [']'] then ((hp.1.drop 1).dropLast, hp.2)
  else hp

/-- Go `url.URL.Hostname()`. -/
def Hostname (u : GoURL) : Str := (splitHostPort u.host).1

/-! ## `pkg/lib/hf/parse.go` -/

/-- The `hf.RepositoryType` enumeration.  Its declaration sits in a file of the
`hf` package outside the provided sources, but the spec's data model ("§3
RepositoryKind: `Unknown`, `Model`, `Dataset`") and every use in the provided
sources fix it as a three-valued enumeration whose members are compared for
equality only. -/
inductive RepositoryType where
  | RepoTypeUnknown
  | RepoTypeModel
  | RepoTypeDataset
deriving DecidableEq, Repr

export RepositoryType (RepoTypeUnknown RepoTypeModel RepoTypeDataset)

/-- The distinct `fmt.Errorf` sites of `ParseHuggingFaceRepo`; the spec files
every one of them under its `InvalidReference` taxon. -/
inductive ParseErr where
  | invalidDatasetFormat
  | invalidURLFormat
  | unsupportedHostname (host : Str)
  | invalidDatasetURL
  | unrecognizedURLPattern
  | invalidRepoFormat
deriving DecidableEq, Repr

/-- `isValidRepoFormat` from `parse.go`: split on `/`, require exactly two
parts, both non-empty. -/
def isValidRepoFormat (s : Str) : Bool :=
  let parts := goSplit s '/'
  parts.length == 2 && parts.getD 0 [] != [] && parts.getD 1 [] != []

/-- The literal `"datasets/"` of `parse.go`. -/
def datasetsSlash : Str := "datasets/".toList

/-- The literal `"://"` of `parse.go`. -/
def schemeSep : Str := "://".toList

/-- The literal `"huggingface.co/"` of `parse.go`. -/
def hfHostSlash : Str := "huggingface.co/".toList

/-- The literal `"huggingface.co"` of `parse.go`: the one trusted hostname. -/
def hfHost : Str := "huggingface.co".toList

/-- The literal `"datasets"` of `parse.go`. -/
def datasetsSeg : Str := "datasets".toList

/-- The literal `"https://"` of `parse.go`. -/
def httpsScheme : Str := "https://".toList

/-- The URL normalization inside `ParseHuggingFaceRepo`: prepend `https://`
when no scheme separator is present. -/
def normalizeURLString (path : Str) : Str :=
  if !goContains path schemeSep then httpsScheme ++ path else path

/-- The URL tier of `ParseHuggingFaceRepo` (`parse.go` lines 44-82), reached
when the input contains `://` or starts with `huggingface.co/`: normalize,
parse as a URL, validate the hostname, then extract the path segments. -/
def parseAsHFURL (path : Str) : Str × RepositoryType × Option ParseErr :=
  match urlParse (normalizeURLString path) with
  | none => ([], RepoTypeUnknown, some .invalidURLFormat)
  | some parsedURL =>
    if Hostname parsedURL != hfHost then
      ([], RepoTypeUnknown, some (.unsupportedHostname (Hostname parsedURL)))
    else
      let pathSegments := goSplit (goTrim parsedURL.path '/') '/'
      if 1 ≤ pathSegments.length ∧ pathSegments.getD 0 [] = datasetsSeg then
        if 3 ≤ pathSegments.length then
          (goJoin ((pathSegments.drop 1).take 2) '/', RepoTypeDataset, none)
        else ([], RepoTypeUnknown, some .invalidDatasetURL)
      else if pathSegments.length = 2 then
        (goJoin pathSegments '/', RepoTypeModel, none)
      else ([], RepoTypeUnknown, some .unrecognizedURLPattern)

/-- `ParseHuggingFaceRepo` from `parse.go`.  The Go triple
`(repo string, repoType RepositoryType, err error)` is returned as a triple
whose last component is `none` exactly when the Go `err` is nil. -/
def ParseHuggingFaceRepo (path : Str) : Str × RepositoryType × Option ParseErr :=
  if goHasPrefix path datasetsSlash then
    let repo := goTrimPrefix path datasetsSlash
    if !isValidRepoFormat repo then ([], RepoTypeUnknown, some .invalidDatasetFormat)
    else (repo, RepoTypeDataset, none)
  else if goContains path schemeSep || goHasPrefix path hfHostSlash then
    parseAsHFURL path
  else if isValidRepoFormat path then (path, RepoTypeModel, none)
  else ([], RepoTypeUnknown, some .invalidRepoFormat)

/-! ## The `kitinit` command file -/

/-- Outcome of the one `os.Stat` call in `detectRemoteRepo`.  The Go code
branches only on `err == nil`; `errNotExist` (an `fs.ErrNotExist` error) and
`errOther` (permission denied, I/O failure, ...) are distinguished here so that
claims about them can be told apart. -/
inductive StatOutcome where
  | ok
  | errNotExist
  | errOther
deriving DecidableEq, Repr

/-- `isLocalPath` from the `kitinit` command file. -/
def isLocalPath (path : Str) : Bool :=
  if path == ".".toList || path == "..".toList then true
  else if goHasPrefix path "./".toList || goHasPrefix path "../".toList then true
  else if path == "~".toList || goHasPrefix path "~/".toList
      || goHasPrefix path "~\\".toList then true
  else if goHasPrefix path "/".toList then true
  else if goHasPrefix path "\\".toList
      || (decide (2 ≤ path.length) && path.getD 1 ' ' == ':') then true
  else false

/-- `detectRemoteRepo` from the `kitinit` command file, the `os.Stat` call
abstracted as the oracle `stat`.  The source tests nothing but `err == nil`. -/
def detectRemoteRepo (stat : Str → StatOutcome) (path : Str) :
    Bool × Str × RepositoryType :=
  if isLocalPath path then (false, [], RepoTypeUnknown)
  else if stat path = StatOutcome.ok then (false, [], RepoTypeUnknown)
  else
    match ParseHuggingFaceRepo path with
    | (repo, repoType, none) => (true, repo, repoType)
    | _ => (false, [], RepoTypeUnknown)

/-- The fields of `artifact.Package` that `buildPackageFromRepo` writes (the
struct is declared outside the provided sources; these are exactly the fields
the provided sources and tests read and write). -/
structure Package where
  Name : Str := []
  Description : Str := []
  Authors : List Str := []
deriving DecidableEq, Repr

/-- `buildPackageFromRepo` from the `kitinit` command file; the sequential
field assignments of the Go code become functional record updates. -/
def buildPackageFromRepo (repo name description author : Str) : Package :=
  let sections := goSplit repo '/'
  let p0 : Package := {}
  let p1 :=
    if name != [] then { p0 with Name := name }
    else if 2 ≤ sections.length then
      { p0 with Name := sections.getD (sections.length - 1) [] }
    else p0
  let p2 := if description != [] then { p1 with Description := description } else p1
  if author != [] then { p2 with Authors := p2.Authors ++ [author] }
  else if 2 ≤ sections.length then
    { p2 with Authors := p2.Authors ++ [sections.getD (sections.length - 2) []] }
  else p2

/-! ## Spec-side definitions

These restate shapes in the words of the natural-language spec, to be compared
with the source-derived definitions above. -/

/-- The spec's two-segment format rule, in its words: "splitting the string on
`/` must yield exactly two parts, both non-empty". -/
def twoSegmentRule (s : Str) : Prop :=
  (goSplit s '/').length = 2 ∧ ∀ p ∈ goSplit s '/', p ≠ []

instance (s : Str) : Decidable (twoSegmentRule s) := by
  unfold twoSegmentRule; infer_instance

/-- The spec's normalized identifier shape: "no leading or trailing slashes,
exactly two non-empty segments". -/
def isNormalizedRepoId (s : Str) : Bool :=
  !goHasPrefix s ['/'] && !goHasSuffix s ['/'] &&
    (goSplit s '/').length == 2 && (goSplit s '/').all (fun p => !p.isEmpty)

/-- §4.3 `ManifestDefaults`: name, description, ordered author sequence. -/
structure ManifestDefaults where
  name : Str
  description : Str
  authors : List Str
deriving DecidableEq, Repr

/-- §4.3 `buildDefaults`, written from the spec's words: each field is the
override when non-empty, else the value derived from the identifier (last
segment / nothing / second-to-last segment) when it splits into 2+ segments,
else empty. -/
def buildDefaults (identifier overrideName overrideDescription overrideAuthor : Str) :
    ManifestDefaults :=
  let sections := goSplit identifier '/'
  { name :=
      if overrideName ≠ [] then overrideName
      else if 2 ≤ sections.length then sections.getLastD [] else []
    description := if overrideDescription ≠ [] then overrideDescription else []
    authors :=
      if overrideAuthor ≠ [] then [overrideAuthor]
      else if 2 ≤ sections.length then [sections.dropLast.getLastD []] else [] }

/-- The inputs that reach the dataset arm of the URL tier: not in dataset
short form, in URL form, and the first segment of the parsed URL path is
`datasets`. -/
def isDatasetURLForm (path : Str) : Bool :=
  !goHasPrefix path datasetsSlash &&
    (goContains path schemeSep || goHasPrefix path hfHostSlash) &&
    match urlParse (normalizeURLString path) with
    | some u => (goSplit (goTrim u.path '/') '/').getD 0 [] == datasetsSeg
    | none => false

/-! ## Lemmas about the string primitives -/

theorem goSplit_ne_nil (s : Str) (c : Char) : goSplit s c ≠ [] := by
  unfold goSplit List.splitOn
  exact List.splitOnP_ne_nil _ s

theorem length_splitOnP (p : Char → Bool) (s : Str) :
    (s.splitOnP p).length = s.countP p + 1 := by
  induction s with
  | nil => simp [List.splitOnP_nil]
  | cons x xs ih =>
    rw [List.splitOnP_cons]
    by_cases h : p x
    · simp [h, List.countP_cons, ih]
    · rcases h' : xs.splitOnP p with _ | ⟨hd, tl⟩
      · exact absurd h' (List.splitOnP_ne_nil _ xs)
      · rw [h'] at ih
        simp only [List.length_cons] at ih
        simp [h, List.countP_cons, h']
        omega

theorem length_goSplit (s : Str) (c : Char) :
    (goSplit s c).length = s.count c + 1 := by
  unfold goSplit List.splitOn List.count
  exact length_splitOnP _ s

theorem sep_not_mem_of_mem_splitOnP {p : Char → Bool} {s l : Str}
    (hl : l ∈ s.splitOnP p) : ∀ x ∈ l, p x = false := by
  induction s generalizing l with
  | nil =>
    rw [List.splitOnP_nil, List.mem_singleton] at hl
    subst hl; simp
  | cons y ys ih =>
    rw [List.splitOnP_cons] at hl
    by_cases h : p y
    · rw [if_pos h, List.mem_cons] at hl
      rcases hl with rfl | hl
      · simp
      · exact ih hl
    · rw [if_neg h] at hl
      rcases h' : ys.splitOnP p with _ | ⟨hd, tl⟩
      · exact absurd h' (List.splitOnP_ne_nil _ ys)
      · rw [h', List.modifyHead_cons, List.mem_cons] at hl
        rcases hl with rfl | hl
        · intro x hx
          rcases List.mem_cons.mp hx with rfl | hx
          · simpa using h
          · exact ih (h' ▸ List.mem_cons_self hd tl) x hx
        · exact ih (h' ▸ List.mem_cons_of_mem hd hl)

theorem sep_not_mem_of_mem_goSplit {s l : Str} {c : Char}
    (hl : l ∈ goSplit s c) : c ∉ l := by
  intro hc
  have hl' : l ∈ s.splitOnP (fun x => x == c) := hl
  have := sep_not_mem_of_mem_splitOnP hl' c hc
  simp at this

theorem intercalate_pair (a b : Str) (c : Char) :
    List.intercalate [c] [a, b] = a ++ c :: b := by
  simp [List.intercalate, List.intersperse]

theorem goSplit_pair {s a b : Str} {c : Char} (h : goSplit s c = [a, b]) :
    s = a ++ c :: b := by
  have h' := List.intercalate_splitOn s c
  unfold goSplit at h
  rw [h, intercalate_pair] at h'
  exact h'.symm

theorem isValidRepoFormat_iff {s : Str} :
    isValidRepoFormat s = true ↔
      ∃ a b : Str, goSplit s '/' = [a, b] ∧ a ≠ [] ∧ b ≠ [] := by
  unfold isValidRepoFormat
  constructor
  · intro h
    rcases hs : goSplit s '/' with _ | ⟨a, _ | ⟨b, _ | ⟨d, rest⟩⟩⟩ <;>
      simp [hs] at h
    exact ⟨a, b, rfl, by simpa using h.1, by simpa using h.2⟩
  · rintro ⟨a, b, hs, ha, hb⟩
    simp [hs, ha, hb]

theorem count_le_of_infix {sub s : Str} (h : sub <:+: s) (c : Char) :
    sub.count c ≤ s.count c :=
  h.sublist.count_le c

theorem infix_right_of_not_mem {x : Char} {p a b : Str}
    (h : (x :: p) <:+: a ++ b) (hx : x ∉ a) : (x :: p) <:+: b := by
  induction a with
  | nil => simpa using h
  | cons y ys ih =>
    obtain ⟨s, t, hst⟩ := h
    rcases s with _ | ⟨z, zs⟩
    · simp only [List.nil_append, List.cons_append] at hst
      have : x = y := by
        have := congrArg (List.headD · ' ') hst
        simpa using this
      exact absurd (this ▸ List.mem_cons_self x ys) hx
    · rw [List.cons_append, List.cons_append] at hst
      have htl : zs ++ (x :: p) ++ t = ys ++ b := by
        simpa using congrArg List.tail hst
      exact ih ⟨zs, t, htl⟩ (fun hm => hx (List.mem_cons_of_mem y hm))

theorem isValidRepoFormat_eq_false_of_two_slashes {s : Str}
    (h : 2 ≤ s.count '/') : isValidRepoFormat s = false := by
  rw [Bool.eq_false_iff]
  intro hv
  obtain ⟨a, b, hs, -, -⟩ := isValidRepoFormat_iff.mp hv
  have hlen := length_goSplit s '/'
  rw [hs] at hlen
  simp at hlen
  omega

theorem isValidRepoFormat_count {s : Str} (h : isValidRepoFormat s = true) :
    s.count '/' = 1 := by
  obtain ⟨a, b, hs, -, -⟩ := isValidRepoFormat_iff.mp h
  have hlen := length_goSplit s '/'
  rw [hs] at hlen
  simp at hlen
  omega

theorem not_contains_sep_of_valid {s : Str} (h : isValidRepoFormat s = true) :
    goContains s schemeSep = false := by
  rw [Bool.eq_false_iff]
  intro hc
  unfold goContains at hc
  have hinf : schemeSep <:+: s := of_decide_eq_true hc
  have h2 : schemeSep.count '/' ≤ s.count '/' := count_le_of_infix hinf '/'
  have : schemeSep.count '/' = 2 := by decide
  have := isValidRepoFormat_count h
  omega

theorem dropWhile_head_false {α : Type} {p : α → Bool} :
    ∀ {s : List α} {y : α} {ys : List α}, s.dropWhile p = y :: ys → p y = false := by
  intro s
  induction s with
  | nil => intro y ys h; simp [List.dropWhile] at h
  | cons a as ih =>
    intro y ys h
    rw [List.dropWhile_cons] at h
    by_cases hp : p a
    · rw [if_pos hp] at h; exact ih h
    · rw [if_neg hp] at h
      cases h
      simpa using hp

theorem goTrim_head {s : Str} {c : Char} {xs : Str} (h : goTrim s c = c :: xs) :
    False := by
  unfold goTrim at h
  obtain ⟨t, ht⟩ := List.rdropWhile_prefix (fun y => y == c) (s.dropWhile (fun y => y == c))
  rw [h] at ht
  have : (s.dropWhile fun y => y == c) = c :: (xs ++ t) := by
    rw [← ht]; simp
  have := dropWhile_head_false this
  simp at this

theorem goTrim_concat {s : Str} {c : Char} {a : Str} (h : goTrim s c = a ++ [c]) :
    False := by
  unfold goTrim List.rdropWhile at h
  have h' := congrArg List.reverse h
  rw [List.reverse_reverse, List.reverse_append] at h'
  simp only [List.reverse_singleton, List.singleton_append] at h'
  have := dropWhile_head_false h'
  simp at this

theorem two_split_goTrim_ne {s : Str} {c : Char} {s0 s1 : Str}
    (h : goSplit (goTrim s c) c = [s0, s1]) : s0 ≠ [] ∧ s1 ≠ [] := by
  have heq := goSplit_pair h
  constructor
  · rintro rfl
    rw [List.nil_append] at heq
    exact goTrim_head heq
  · rintro rfl
    exact goTrim_concat heq

/-! ## Tier-selection lemmas for `ParseHuggingFaceRepo` -/

theorem parse_dataset_tier {path : Str}
    (h : goHasPrefix path datasetsSlash = true) :
    ParseHuggingFaceRepo path =
      (if !isValidRepoFormat (goTrimPrefix path datasetsSlash) then
        ([], RepoTypeUnknown, some ParseErr.invalidDatasetFormat)
       else (goTrimPrefix path datasetsSlash, RepoTypeDataset, none)) := by
  unfold ParseHuggingFaceRepo
  rw [if_pos h]

theorem parse_url_tier {path : Str}
    (hds : goHasPrefix path datasetsSlash = false)
    (hurl : (goContains path schemeSep || goHasPrefix path hfHostSlash) = true) :
    ParseHuggingFaceRepo path = parseAsHFURL path := by
  unfold ParseHuggingFaceRepo
  rw [if_neg (by rw [hds]; exact Bool.false_ne_true), if_pos hurl]

theorem parse_short_tier {path : Str}
    (hds : goHasPrefix path datasetsSlash = false)
    (hurl : (goContains path schemeSep || goHasPrefix path hfHostSlash) = false) :
    ParseHuggingFaceRepo path =
      (if isValidRepoFormat path then (path, RepoTypeModel, none)
       else ([], RepoTypeUnknown, some ParseErr.invalidRepoFormat)) := by
  unfold ParseHuggingFaceRepo
  rw [if_neg (by rw [hds]; exact Bool.false_ne_true),
    if_neg (by rw [hurl]; exact Bool.false_ne_true)]

theorem parseAsHFURL_host_mismatch {path : Str} {u : GoURL}
    (hu : urlParse (normalizeURLString path) = some u)
    (hh : Hostname u ≠ hfHost) :
    parseAsHFURL path =
      ([], RepoTypeUnknown, some (.unsupportedHostname (Hostname u))) := by
  unfold parseAsHFURL
  rw [hu]
  dsimp only
  rw [if_pos (bne_iff_ne.mpr hh)]

theorem parseAsHFURL_ok {path repo : Str} {ty : RepositoryType}
    (h : parseAsHFURL path = (repo, ty, none)) :
    ∃ u, urlParse (normalizeURLString path) = some u ∧
      Hostname u = hfHost ∧
      ((∃ s0 s1 rest, goSplit (goTrim u.path '/') '/' = datasetsSeg :: s0 :: s1 :: rest ∧
          repo = s0 ++ '/' :: s1 ∧ ty = RepoTypeDataset) ∨
       (∃ s0 s1, goSplit (goTrim u.path '/') '/' = [s0, s1] ∧ s0 ≠ datasetsSeg ∧
          repo = s0 ++ '/' :: s1 ∧ ty = RepoTypeModel)) := by
  unfold parseAsHFURL at h
  rcases hu : urlParse (normalizeURLString path) with _ | u <;> rw [hu] at h <;> dsimp only at h
  · exact absurd h (by simp)
  · by_cases hb : (Hostname u != hfHost) = true
    · rw [if_pos hb] at h
      exact absurd h (by simp)
    · rw [if_neg hb] at h
      have hhost : Hostname u = hfHost := by simpa using hb
      refine ⟨u, rfl, hhost, ?_⟩
      rcases hsegs : goSplit (goTrim u.path '/') '/' with _ | ⟨g0, gs⟩
      · exact absurd hsegs (goSplit_ne_nil _ _)
      rw [hsegs] at h
      by_cases hdsc : 1 ≤ (g0 :: gs).length ∧ (g0 :: gs).getD 0 [] = datasetsSeg
      · rw [if_pos hdsc] at h
        have hg0 : g0 = datasetsSeg := by simpa using hdsc.2
        by_cases h3 : 3 ≤ (g0 :: gs).length
        · rw [if_pos h3] at h
          rcases gs with _ | ⟨g1, _ | ⟨g2, grest⟩⟩
          · simp at h3
          · simp at h3
          · have hjoin : goJoin (((g0 :: g1 :: g2 :: grest).drop 1).take 2) '/'
                = g1 ++ '/' :: g2 := by
              show goJoin [g1, g2] '/' = g1 ++ '/' :: g2
              exact intercalate_pair g1 g2 '/'
            rw [hjoin] at h
            injection h with h1 h23
            injection h23 with h2 h3'
            exact Or.inl ⟨g1, g2, grest, by rw [hg0], h1.symm, h2.symm⟩
        · rw [if_neg h3] at h
          exact absurd h (by simp)
      · rw [if_neg hdsc] at h
        by_cases h2 : (g0 :: gs).length = 2
        · rw [if_pos h2] at h
          rcases gs with _ | ⟨g1, _ | ⟨g2, grest⟩⟩
          · simp at h2
          · have hjoin : goJoin [g0, g1] '/' = g0 ++ '/' :: g1 :=
              intercalate_pair g0 g1 '/'
            rw [hjoin] at h
            injection h with h1 h23
            injection h23 with h2' h3'
            refine Or.inr ⟨g0, g1, rfl, ?_, h1.symm, h2'.symm⟩
            intro hg0
            exact hdsc ⟨by simp, by simpa using hg0⟩
          · simp at h2
        · rw [if_neg h2] at h
          exact absurd h (by simp)

theorem goTrimPrefix_append {p r : Str} : goTrimPrefix (p ++ r) p = r := by
  unfold goTrimPrefix goHasPrefix
  rw [if_pos (by simp [List.isPrefixOf_iff_prefix])]
  exact List.drop_left p r

theorem dataset_tier_fails_with_sep {path : Str}
    (hds : goHasPrefix path datasetsSlash = true)
    (hsep : goContains path schemeSep = true) :
    isValidRepoFormat (goTrimPrefix path datasetsSlash) = false := by
  obtain ⟨r, hr⟩ := List.isPrefixOf_iff_prefix.mp hds
  subst hr
  rw [goTrimPrefix_append]
  unfold goContains at hsep
  have hinf : schemeSep <:+: datasetsSlash ++ r := of_decide_eq_true hsep
  have hsch : schemeSep = ':' :: ['/', '/'] := by decide
  have hinf' : (':' :: ['/', '/']) <:+: r :=
    infix_right_of_not_mem (hsch ▸ hinf) (by decide)
  have hcount : 2 ≤ r.count '/' := by
    have hle := count_le_of_infix hinf' '/'
    simpa using hle
  exact isValidRepoFormat_eq_false_of_two_slashes hcount

/-! ## Claim theorems -/

/-- C1: for every URL-form input (one containing `://` or beginning with
`huggingface.co/`), `ParseHuggingFaceRepo` succeeds only if the parsed
hostname is exactly (case-sensitively) `huggingface.co`; for every other
parsed hostname the call fails with an error and returns an empty identifier
and the Unknown kind. -/
theorem urlform_parse_requires_trusted_host (path : Str)
    (hURL : goContains path schemeSep = true ∨ goHasPrefix path hfHostSlash = true) :
    ((ParseHuggingFaceRepo path).2.2 = none →
        ∃ u, urlParse (normalizeURLString path) = some u ∧ Hostname u = hfHost) ∧
    (∀ u, urlParse (normalizeURLString path) = some u → Hostname u ≠ hfHost →
        ∃ e, ParseHuggingFaceRepo path = ([], RepoTypeUnknown, some e)) := by
  by_cases hds : goHasPrefix path datasetsSlash = true
  · have hsep : goContains path schemeSep = true := by
      rcases hURL with h | h
      · exact h
      · exfalso
        obtain ⟨t1, ht1⟩ := List.isPrefixOf_iff_prefix.mp hds
        obtain ⟨t2, ht2⟩ := List.isPrefixOf_iff_prefix.mp h
        have e0 := congrArg (fun l => l.headD ' ') (ht1.trans ht2.symm)
        simp [datasetsSlash, hfHostSlash] at e0
    have hfail := dataset_tier_fails_with_sep hds hsep
    have hparse := parse_dataset_tier hds
    rw [if_pos (by rw [hfail]; rfl)] at hparse
    constructor
    · intro hok
      rw [hparse] at hok
      simp at hok
    · intro u hu hne
      exact ⟨ParseErr.invalidDatasetFormat, hparse⟩
  · have hds' : goHasPrefix path datasetsSlash = false := Bool.eq_false_iff.mpr hds
    have hurl : (goContains path schemeSep || goHasPrefix path hfHostSlash) = true := by
      rcases hURL with h | h <;> simp [h]
    have hparse := parse_url_tier hds' hurl
    constructor
    · intro hok
      rw [hparse] at hok
      rcases hq : parseAsHFURL path with ⟨repo, ty, err⟩
      rw [hq] at hok
      dsimp only at hok
      subst hok
      obtain ⟨u, hu, hhost, -⟩ := parseAsHFURL_ok hq
      exact ⟨u, hu, hhost⟩
    · intro u hu hne
      rw [hparse]
      exact ⟨ParseErr.unsupportedHostname (Hostname u), parseAsHFURL_host_mismatch hu hne⟩

/-! ## Lemmas about `detectRemoteRepo` -/

theorem detectRemoteRepo_local {stat : Str → StatOutcome} {path : Str}
    (hl : isLocalPath path = true) :
    detectRemoteRepo stat path = (false, [], RepoTypeUnknown) := by
  unfold detectRemoteRepo
  rw [if_pos hl]

theorem detectRemoteRepo_not_local_not_ok {stat : Str → StatOutcome} {path : Str}
    (h1 : isLocalPath path = false) (h2 : stat path ≠ StatOutcome.ok) :
    detectRemoteRepo stat path =
      (match ParseHuggingFaceRepo path with
       | (repo, repoType, none) => (true, repo, repoType)
       | _ => (false, [], RepoTypeUnknown)) := by
  unfold detectRemoteRepo
  rw [if_neg (by rw [h1]; exact Bool.false_ne_true), if_neg h2]

theorem parse_ok_kind_id {path repo : Str} {ty : RepositoryType}
    (h : ParseHuggingFaceRepo path = (repo, ty, none)) :
    (ty = RepoTypeModel ∨ ty = RepoTypeDataset) ∧ repo ≠ [] := by
  by_cases hds : goHasPrefix path datasetsSlash = true
  · rw [parse_dataset_tier hds] at h
    by_cases hv : isValidRepoFormat (goTrimPrefix path datasetsSlash) = true
    · rw [if_neg (by rw [hv]; exact Bool.false_ne_true)] at h
      injection h with h1 h23
      injection h23 with h2 h3
      obtain ⟨a, b, hs, -, -⟩ := isValidRepoFormat_iff.mp hv
      have hrec := goSplit_pair hs
      refine ⟨Or.inr h2.symm, ?_⟩
      rw [← h1, hrec]
      simp
    · rw [if_pos (by rw [Bool.eq_false_iff.mpr hv]; rfl)] at h
      exact absurd h (by simp)
  · have hds' := Bool.eq_false_iff.mpr hds
    by_cases hurl : (goContains path schemeSep || goHasPrefix path hfHostSlash) = true
    · rw [parse_url_tier hds' hurl] at h
      obtain ⟨u, -, -, hcase⟩ := parseAsHFURL_ok h
      rcases hcase with ⟨s0, s1, rest, -, hrepo, hty⟩ | ⟨s0, s1, -, -, hrepo, hty⟩
      · exact ⟨Or.inr hty, by rw [hrepo]; simp⟩
      · exact ⟨Or.inl hty, by rw [hrepo]; simp⟩
    · rw [parse_short_tier hds' (Bool.eq_false_iff.mpr hurl)] at h
      by_cases hv : isValidRepoFormat path = true
      · rw [if_pos hv] at h
        injection h with h1 h23
        injection h23 with h2 h3
        obtain ⟨a, b, hs, -, -⟩ := isValidRepoFormat_iff.mp hv
        have hrec := goSplit_pair hs
        refine ⟨Or.inl h2.symm, ?_⟩
        rw [← h1, hrec]
        simp
      · rw [if_neg hv] at h
        exact absurd h (by simp)

/-- C7: whenever classification reports local (`isRemote = false`), the
identifier is empty and the kind is Unknown, for every input and every
filesystem state. -/
theorem local_result_carries_no_metadata (stat : Str → StatOutcome) (path : Str)
    (h : (detectRemoteRepo stat path).1 = false) :
    (detectRemoteRepo stat path).2.1 = [] ∧
      (detectRemoteRepo stat path).2.2 = RepoTypeUnknown := by
  by_cases hl : isLocalPath path = true
  · rw [detectRemoteRepo_local hl]
    exact ⟨rfl, rfl⟩
  · have hl' := Bool.eq_false_iff.mpr hl
    by_cases hs : stat path = StatOutcome.ok
    · unfold detectRemoteRepo
      rw [if_neg (by rw [hl']; exact Bool.false_ne_true), if_pos hs]
      exact ⟨rfl, rfl⟩
    · rw [detectRemoteRepo_not_local_not_ok hl' hs] at h ⊢
      set r := ParseHuggingFaceRepo path with hr
      rcases r with ⟨repo, ty, err⟩
      cases err
      · exact absurd h (by simp)
      · exact ⟨rfl, rfl⟩

/-- Witness for C7 at the concrete input `"."` with an all-ok filesystem. -/
theorem local_result_carries_no_metadata_witness :
    (detectRemoteRepo (fun _ => StatOutcome.ok) ".".toList).1 = false ∧
      (detectRemoteRepo (fun _ => StatOutcome.ok) ".".toList).2.1 = [] ∧
      (detectRemoteRepo (fun _ => StatOutcome.ok) ".".toList).2.2 = RepoTypeUnknown :=
  ⟨by decide, local_result_carries_no_metadata (fun _ => StatOutcome.ok) ".".toList (by decide)⟩

/-- C6: an input that is not an explicit local form but names an existing
filesystem entry classifies as local with empty identifier and Unknown kind,
even if it matches the two-segment remote shape. -/
theorem existing_entry_classified_local (stat : Str → StatOutcome) (path : Str)
    (h1 : isLocalPath path = false) (h2 : stat path = StatOutcome.ok) :
    detectRemoteRepo stat path = (false, [], RepoTypeUnknown) := by
  unfold detectRemoteRepo
  rw [if_neg (by rw [h1]; exact Bool.false_ne_true), if_pos h2]

/-- Witness for C6 at the existing two-segment-shaped path `models/my-model`. -/
theorem existing_entry_classified_local_witness :
    isLocalPath "models/my-model".toList = false ∧
      detectRemoteRepo (fun _ => StatOutcome.ok) "models/my-model".toList =
        (false, [], RepoTypeUnknown) :=
  ⟨by decide,
    existing_entry_classified_local (fun _ => StatOutcome.ok) "models/my-model".toList
      (by decide) rfl⟩

/-- C10: whenever classification reports remote, the kind is Model or Dataset
(never Unknown) and the identifier is non-empty; `detectRemoteRepo` is a total
function with no error result, every parse failure being absorbed into a local
classification. -/
theorem remote_result_wellformed (stat : Str → StatOutcome) (path : Str)
    (h : (detectRemoteRepo stat path).1 = true) :
    ((detectRemoteRepo stat path).2.2 = RepoTypeModel ∨
      (detectRemoteRepo stat path).2.2 = RepoTypeDataset) ∧
      (detectRemoteRepo stat path).2.1 ≠ [] := by
  by_cases hl : isLocalPath path = true
  · rw [detectRemoteRepo_local hl] at h
    exact absurd h (by simp)
  · have hl' := Bool.eq_false_iff.mpr hl
    by_cases hs : stat path = StatOutcome.ok
    · unfold detectRemoteRepo at h
      rw [if_neg (by rw [hl']; exact Bool.false_ne_true), if_pos hs] at h
      exact absurd h (by simp)
    · rw [detectRemoteRepo_not_local_not_ok hl' hs] at h ⊢
      set r := ParseHuggingFaceRepo path with hr
      rcases r with ⟨repo, ty, err⟩
      cases err
      · have := parse_ok_kind_id hr.symm
        exact ⟨this.1.imp (fun e => e) (fun e => e), this.2⟩
      · exact absurd h (by simp)

/-- Witness for C10 at the non-existing short-form input `org/repo`. -/
theorem remote_result_wellformed_witness :
    (detectRemoteRepo (fun _ => StatOutcome.errNotExist) "org/repo".toList).1 = true ∧
      ((detectRemoteRepo (fun _ => StatOutcome.errNotExist) "org/repo".toList).2.2 = RepoTypeModel ∨
        (detectRemoteRepo (fun _ => StatOutcome.errNotExist) "org/repo".toList).2.2 = RepoTypeDataset) ∧
      (detectRemoteRepo (fun _ => StatOutcome.errNotExist) "org/repo".toList).2.1 ≠ [] :=
  ⟨by decide,
    remote_result_wellformed (fun _ => StatOutcome.errNotExist) "org/repo".toList (by decide)⟩

/-- C2, counterexample: a stat failure that is not "does not exist" (e.g.
permission denied) is not propagated — there is no error channel at all — and
classification continues to remote parsing, here classifying the inaccessible
path as a remote repository. -/
theorem stat_error_not_propagated_cex :
    detectRemoteRepo (fun _ => StatOutcome.errOther) "owner/name".toList =
      (true, "owner/name".toList, RepoTypeModel) := by decide

/-- C2, amended: every stat outcome other than success — "does not exist" and
any other failure such as permission denied alike — is treated as "not locally
present", and classification proceeds to remote parsing with no error
surfaced. -/
theorem stat_error_treated_as_not_local (stat : Str → StatOutcome) (path : Str)
    (h : stat path ≠ StatOutcome.ok) :
    detectRemoteRepo stat path =
      detectRemoteRepo (fun _ => StatOutcome.errNotExist) path := by
  by_cases hl : isLocalPath path = true
  · rw [detectRemoteRepo_local hl, detectRemoteRepo_local hl]
  · have hl' := Bool.eq_false_iff.mpr hl
    rw [detectRemoteRepo_not_local_not_ok hl' h,
      detectRemoteRepo_not_local_not_ok hl' (by simp)]

/-- Witness for C2's amended statement at a permission-denied stat. -/
theorem stat_error_treated_as_not_local_witness :
    ((fun _ => StatOutcome.errOther) "owner/name".toList ≠ StatOutcome.ok) ∧
      detectRemoteRepo (fun _ => StatOutcome.errOther) "owner/name".toList =
        detectRemoteRepo (fun _ => StatOutcome.errNotExist) "owner/name".toList :=
  ⟨by decide,
    stat_error_treated_as_not_local (fun _ => StatOutcome.errOther) "owner/name".toList
      (by decide)⟩

/-- C4, counterexample: the input `~user/repo` starts with `~`, yet when it
does not exist on the filesystem it is classified as a remote Model
repository, because `isLocalPath` only treats `~`, `~/...` and `~\...` as
local forms. -/
theorem tilde_input_classified_remote_cex :
    goHasPrefix "~user/repo".toList "~".toList = true ∧
      detectRemoteRepo (fun _ => StatOutcome.errNotExist) "~user/repo".toList =
        (true, "~user/repo".toList, RepoTypeModel) := by decide

/-- C4, amended: inputs starting with `./`, `../`, `/`, `~/` or `~\`, and the
exact inputs `.`, `..` and `~`, classify as local regardless of filesystem
state and of whether they would parse as remote references. -/
theorem explicit_local_forms_classified_local (stat : Str → StatOutcome) (path : Str)
    (h : goHasPrefix path "./".toList = true ∨ goHasPrefix path "../".toList = true ∨
      goHasPrefix path "/".toList = true ∨ goHasPrefix path "~/".toList = true ∨
      goHasPrefix path "~\\".toList = true ∨ path = ".".toList ∨ path = "..".toList ∨
      path = "~".toList) :
    detectRemoteRepo stat path = (false, [], RepoTypeUnknown) := by
  have hl : isLocalPath path = true := by
    unfold isLocalPath
    split
    · rfl
    split
    · rfl
    split
    · rfl
    split
    · rfl
    split
    · rfl
    rename_i h1 h2 h3 h4 h5
    exfalso
    rcases h with h | h | h | h | h | h | h | h
    · exact h2 (by rw [h]; rfl)
    · exact h2 (by rw [h]; simp)
    · exact h4 h
    · exact h3 (by rw [h]; simp)
    · exact h3 (by rw [h]; simp)
    · exact h1 (by subst h; simp)
    · exact h1 (by subst h; simp)
    · exact h3 (by subst h; simp)
  exact detectRemoteRepo_local hl

/-- Witness for C4's amended statement at the input `./model`. -/
theorem explicit_local_forms_classified_local_witness :
    goHasPrefix "./model".toList "./".toList = true ∧
      detectRemoteRepo (fun _ => StatOutcome.errNotExist) "./model".toList =
        (false, [], RepoTypeUnknown) :=
  ⟨by decide,
    explicit_local_forms_classified_local (fun _ => StatOutcome.errNotExist) "./model".toList
      (Or.inl (by decide))⟩

/-! ## Index arithmetic for last / second-to-last segments -/

theorem getLastD_eq_getD {α : Type} (l : List α) (d : α) :
    l.getLastD d = l.getD (l.length - 1) d := by
  rw [List.getLastD_eq_getLast?, List.getLast?_eq_getElem?, List.getD_eq_getElem?_getD]

theorem dropLast_getLastD {α : Type} (l : List α) (d : α) (h : 2 ≤ l.length) :
    l.dropLast.getLastD d = l.getD (l.length - 2) d := by
  rw [getLastD_eq_getD, List.length_dropLast, List.getD_eq_getElem?_getD,
    List.getD_eq_getElem?_getD, List.getElem?_dropLast]
  have he : l.length - 1 - 1 = l.length - 2 := by omega
  rw [he, if_pos (by omega)]

theorem getElem?_length_sub_one {α : Type} (l : List α) :
    l[l.length - 1]? = l.getLast? :=
  (List.getLast?_eq_getElem? l).symm

theorem getElem?_length_sub_two {α : Type} (l : List α) (h : 2 ≤ l.length) :
    l[l.length - 2]? = l.dropLast.getLast? := by
  rw [List.getLast?_eq_getElem?, List.length_dropLast, List.getElem?_dropLast]
  have he : l.length - 1 - 1 = l.length - 2 := by omega
  rw [he, if_pos (by omega)]

/-- C9: `buildPackageFromRepo` computes exactly the spec's `buildDefaults`:
name is the override when non-empty else the last segment of a 2+-segment
identifier else empty; description is the override else empty; authors is the
one-element override else the second-to-last segment of a 2+-segment
identifier else empty — each field independently; and the spec's concrete
example holds. -/
theorem buildPackage_matches_spec_defaults :
    (∀ repo name description author : Str,
      buildPackageFromRepo repo name description author =
        { Name := (buildDefaults repo name description author).name,
          Description := (buildDefaults repo name description author).description,
          Authors := (buildDefaults repo name description author).authors }) ∧
    buildPackageFromRepo "myorg/mymodel".toList [] [] [] =
      { Name := "mymodel".toList, Description := [], Authors := ["myorg".toList] } := by
  refine ⟨?_, by decide⟩
  intro repo name description author
  unfold buildPackageFromRepo buildDefaults
  by_cases hn : name = [] <;> by_cases hd : description = [] <;>
    by_cases ha : author = [] <;> by_cases hs : 2 ≤ (goSplit repo '/').length <;>
      simp [hn, hd, ha, hs, getElem?_length_sub_one, getElem?_length_sub_two]

theorem isValidRepoFormat_iff_rule (s : Str) :
    isValidRepoFormat s = true ↔ twoSegmentRule s := by
  rw [isValidRepoFormat_iff]
  constructor
  · rintro ⟨a, b, hs, ha, hb⟩
    refine ⟨by rw [hs]; rfl, ?_⟩
    intro p hp
    rw [hs] at hp
    rcases (by simpa using hp : p = a ∨ p = b) with rfl | rfl <;> assumption
  · rintro ⟨hlen, hmem⟩
    rcases hsp : goSplit s '/' with _ | ⟨a, _ | ⟨b, _ | ⟨c0, rest⟩⟩⟩
    · rw [hsp] at hlen; simp at hlen
    · rw [hsp] at hlen; simp at hlen
    · exact ⟨a, b, rfl, hmem a (by simp [hsp]), hmem b (by simp [hsp])⟩
    · rw [hsp] at hlen; simp at hlen

/-- C8: the two-segment format rule accepts exactly the strings whose split on
`/` yields two non-empty parts; one-segment and three-segment inputs fail
short-form parsing, `datasets/owner` fails dataset short-form parsing, and
leading, trailing or doubled slashes fail the rule. -/
theorem two_segment_rule_characterization :
    (∀ s : Str, isValidRepoFormat s = true ↔ twoSegmentRule s) ∧
    (ParseHuggingFaceRepo "owner".toList).2.2 ≠ none ∧
    (ParseHuggingFaceRepo "owner/name/extra".toList).2.2 ≠ none ∧
    (ParseHuggingFaceRepo "datasets/owner".toList).2.2 ≠ none ∧
    isValidRepoFormat "/name".toList = false ∧
    isValidRepoFormat "name/".toList = false ∧
    isValidRepoFormat "owner//name".toList = false :=
  ⟨isValidRepoFormat_iff_rule, by decide, by decide, by decide, by decide, by decide,
    by decide⟩

/-- C5, counterexample: `datasets/squad` and `huggingface.co/gpt2` are valid
two-non-empty-segment short forms, yet `ParseHuggingFaceRepo` fails on both —
the dataset-prefix tier and the URL tier capture them first. -/
theorem short_form_round_trip_cex :
    twoSegmentRule "datasets/squad".toList ∧
      (ParseHuggingFaceRepo "datasets/squad".toList).2.2 ≠ none ∧
      twoSegmentRule "huggingface.co/gpt2".toList ∧
      (ParseHuggingFaceRepo "huggingface.co/gpt2".toList).2.2 ≠ none := by decide

/-- C5, amended: every valid `owner/name` short form that does not begin with
the literal `datasets/` and does not begin with the literal `huggingface.co/`
round-trips: parsing succeeds with the identifier equal to the input and kind
Model.  (A short form can never contain `://`, so no further exclusion is
needed.) -/
theorem short_form_round_trip (s : Str)
    (hvalid : twoSegmentRule s)
    (hds : goHasPrefix s datasetsSlash = false)
    (hhf : goHasPrefix s hfHostSlash = false) :
    ParseHuggingFaceRepo s = (s, RepoTypeModel, none) := by
  have hv : isValidRepoFormat s = true := (isValidRepoFormat_iff_rule s).mpr hvalid
  have hsep : goContains s schemeSep = false := not_contains_sep_of_valid hv
  rw [parse_short_tier hds (by rw [hsep, hhf]; rfl), if_pos hv]

/-- Witness for C5's amended statement at `myorg/mymodel`. -/
theorem short_form_round_trip_witness :
    twoSegmentRule "myorg/mymodel".toList ∧
      goHasPrefix "myorg/mymodel".toList datasetsSlash = false ∧
      goHasPrefix "myorg/mymodel".toList hfHostSlash = false ∧
      ParseHuggingFaceRepo "myorg/mymodel".toList =
        ("myorg/mymodel".toList, RepoTypeModel, none) :=
  ⟨by decide, by decide, by decide,
    short_form_round_trip "myorg/mymodel".toList (by decide) (by decide) (by decide)⟩

/-- Witness for C1 at the spoofed host `huggingface.co.evil.com`. -/
theorem urlform_parse_requires_trusted_host_witness :
    (goContains "https://huggingface.co.evil.com/org/repo".toList schemeSep = true ∨
      goHasPrefix "https://huggingface.co.evil.com/org/repo".toList hfHostSlash = true) ∧
    ∃ e, ParseHuggingFaceRepo "https://huggingface.co.evil.com/org/repo".toList =
      ([], RepoTypeUnknown, some e) :=
  ⟨Or.inl (by decide),
    (urlform_parse_requires_trusted_host "https://huggingface.co.evil.com/org/repo".toList
        (Or.inl (by decide))).2
      ⟨"https".toList, [], "huggingface.co.evil.com".toList, "/org/repo".toList⟩
      (by decide) (by decide)⟩

theorem goSplit_append_sep {a b : Str} {c : Char} (hma : c ∉ a) (hmb : c ∉ b) :
    goSplit (a ++ c :: b) c = [a, b] := by
  unfold goSplit List.splitOn
  rw [List.splitOnP_first _ a (fun x hx => by
      simp only [beq_iff_eq]
      exact fun e => hma (e ▸ hx)) c (by simp) b]
  rw [List.splitOnP_eq_single _ b (fun x hx => by
      simp only [beq_iff_eq]
      exact fun e => hmb (e ▸ hx))]

theorem normalized_of_split {s a b : Str} (hs : goSplit s '/' = [a, b])
    (ha : a ≠ []) (hb : b ≠ []) : isNormalizedRepoId s = true := by
  have hm0 : ('/' : Char) ∉ a := sep_not_mem_of_mem_goSplit (by rw [hs]; simp)
  have hm1 : ('/' : Char) ∉ b := sep_not_mem_of_mem_goSplit (by rw [hs]; simp)
  have hrec := goSplit_pair hs
  unfold isNormalizedRepoId
  rw [hs]
  have h1 : goHasPrefix s ['/'] = false := by
    rcases a with _ | ⟨x, a'⟩
    · exact absurd rfl ha
    · have hx : (('/' : Char) == x) = false := by
        refine beq_eq_false_iff_ne.mpr ?_
        intro e
        exact hm0 (e ▸ List.mem_cons_self x a')
      rw [hrec]
      show (['/'].isPrefixOf (x :: (a' ++ '/' :: b))) = false
      simp [List.isPrefixOf, hx]
  have h2 : goHasSuffix s ['/'] = false := by
    rcases List.eq_nil_or_concat b with rfl | ⟨b', y, hby⟩
    · exact absurd rfl hb
    · rw [List.concat_eq_append] at hby
      subst hby
      have hy : (('/' : Char) == y) = false := by
        refine beq_eq_false_iff_ne.mpr ?_
        intro e
        exact hm1 (e ▸ (by simp : y ∈ b' ++ [y]))
      rw [hrec]
      unfold goHasSuffix
      have hre : a ++ '/' :: (b' ++ [y]) = (a ++ '/' :: b') ++ [y] := by simp
      rw [hre]
      show (['/'].isSuffixOf ((a ++ '/' :: b') ++ [y])) = false
      unfold List.isSuffixOf
      rw [List.reverse_append]
      simp [List.isPrefixOf, hy]
  rw [h1, h2]
  simp [ha, hb]

/-- C3, counterexample: the dataset URL `https://huggingface.co/datasets//x`
parses successfully, but its identifier `/x` has a leading slash and an empty
owner segment — it is not in normalized `owner/name` form. -/
theorem dataset_url_identifier_not_normalized_cex :
    ParseHuggingFaceRepo "https://huggingface.co/datasets//x".toList =
      ("/x".toList, RepoTypeDataset, none) ∧
      isNormalizedRepoId "/x".toList = false := by decide

/-- C3, amended: every successful parse yields an identifier that is non-empty
and splits on `/` into exactly two segments; outside the dataset arm of the
URL tier (which copies path segments 2-3 verbatim, empty or not) the
identifier is furthermore fully normalized: two non-empty segments, no leading
or trailing slash. -/
theorem parse_identifier_two_segments (path repo : Str) (ty : RepositoryType)
    (h : ParseHuggingFaceRepo path = (repo, ty, none)) :
    (goSplit repo '/').length = 2 ∧ repo ≠ [] ∧
      (isDatasetURLForm path = false → isNormalizedRepoId repo = true) := by
  by_cases hds : goHasPrefix path datasetsSlash = true
  · rw [parse_dataset_tier hds] at h
    by_cases hv : isValidRepoFormat (goTrimPrefix path datasetsSlash) = true
    · rw [if_neg (by rw [hv]; exact Bool.false_ne_true)] at h
      injection h with h1 h23
      obtain ⟨a, b, hsp, ha, hb⟩ := isValidRepoFormat_iff.mp hv
      refine ⟨by rw [← h1, hsp]; rfl, ?_, fun _ => ?_⟩
      · rw [← h1, goSplit_pair hsp]
        simp
      · rw [← h1]
        exact normalized_of_split hsp ha hb
    · rw [if_pos (by rw [Bool.eq_false_iff.mpr hv]; rfl)] at h
      exact absurd h (by simp)
  · have hds' := Bool.eq_false_iff.mpr hds
    by_cases hurl : (goContains path schemeSep || goHasPrefix path hfHostSlash) = true
    · rw [parse_url_tier hds' hurl] at h
      obtain ⟨u, hu, hhost, hcase⟩ := parseAsHFURL_ok h
      rcases hcase with ⟨s0, s1, rest, hsegs, hrepo, hty⟩ | ⟨s0, s1, hsegs, hs0, hrepo, hty⟩
      · have hm0 : ('/' : Char) ∉ s0 := sep_not_mem_of_mem_goSplit (by rw [hsegs]; simp)
        have hm1 : ('/' : Char) ∉ s1 := sep_not_mem_of_mem_goSplit (by rw [hsegs]; simp)
        have hsplit2 : goSplit repo '/' = [s0, s1] := by
          rw [hrepo]
          exact goSplit_append_sep hm0 hm1
        refine ⟨by rw [hsplit2]; rfl, by rw [hrepo]; simp, ?_⟩
        intro hfalse
        exfalso
        have htrue : isDatasetURLForm path = true := by
          unfold isDatasetURLForm
          rw [hds', hurl, hu]
          dsimp only
          rw [hsegs]
          simp
        rw [htrue] at hfalse
        exact absurd hfalse (by simp)
      · have hne := two_split_goTrim_ne hsegs
        have hm0 : ('/' : Char) ∉ s0 := sep_not_mem_of_mem_goSplit (by rw [hsegs]; simp)
        have hm1 : ('/' : Char) ∉ s1 := sep_not_mem_of_mem_goSplit (by rw [hsegs]; simp)
        have hsplit2 : goSplit repo '/' = [s0, s1] := by
          rw [hrepo]
          exact goSplit_append_sep hm0 hm1
        exact ⟨by rw [hsplit2]; rfl, by rw [hrepo]; simp,
          fun _ => normalized_of_split hsplit2 hne.1 hne.2⟩
    · rw [parse_short_tier hds' (Bool.eq_false_iff.mpr hurl)] at h
      by_cases hv : isValidRepoFormat path = true
      · rw [if_pos hv] at h
        injection h with h1 h23
        obtain ⟨a, b, hsp, ha, hb⟩ := isValidRepoFormat_iff.mp hv
        refine ⟨by rw [← h1, hsp]; rfl, ?_, fun _ => ?_⟩
        · rw [← h1, goSplit_pair hsp]
          simp
        · rw [← h1]
          exact normalized_of_split hsp ha hb
      · rw [if_neg hv] at h
        exact absurd h (by simp)

/-- Witness for C3's amended statement at a model URL. -/
theorem parse_identifier_two_segments_witness :
    ParseHuggingFaceRepo "https://huggingface.co/org/repo".toList =
      ("org/repo".toList, RepoTypeModel, none) ∧
      ((goSplit "org/repo".toList '/').length = 2 ∧ "org/repo".toList ≠ [] ∧
        (isDatasetURLForm "https://huggingface.co/org/repo".toList = false →
          isNormalizedRepoId "org/repo".toList = true)) :=
  ⟨by decide,
    parse_identifier_two_segments "https://huggingface.co/org/repo".toList
      "org/repo".toList RepoTypeModel (by decide)⟩
